import Mathlib

/-!
Verification of the mfpfdzfppffzy core against its specification.

The Python sources under src/ are embedded shallowly:
  * Python dicts (both mpd records and the key-binding dict) become
    association lists with insert-or-replace preserving insertion order,
    matching CPython dict semantics.
  * Python None is modelled by Option.none where a value can be None.
  * External processes (the fzf selector, the mpd server) are modelled as
    oracle inputs: their observable outputs (selected line, exit status,
    upstream record list, terminal width) are parameters of the embedded
    functions.
  * A Python function that can raise an exception on the modelled inputs
    returns an Option, with none standing for the raised exception.
-/

namespace Mfp

/-- Association-list lookup, first match wins; models Python dict lookup
(keys are unique in the lists we build, so first match is the match). -/
def alookup {κ β : Type} [DecidableEq κ] : List (κ × β) → κ → Option β
  | [], _ => none
  | (k, v) :: rest, key => if k = key then some v else alookup rest key

/-- Insert-or-replace for association lists: models Python dict assignment
`d[k] = v` (an existing key keeps its position, a new key is appended,
matching CPython insertion-order semantics). -/
def dictInsert {κ β : Type} [DecidableEq κ] (k : κ) (v : β) : List (κ × β) → List (κ × β)
  | [] => [(k, v)]
  | (k1, v1) :: t => if k1 = k then (k, v) :: t else (k1, v1) :: dictInsert k v t

/-- `hasPre p l` is true when the list `p` is an initial segment of `l`
(used to decide substring containment). -/
def hasPre : List Char → List Char → Bool
  | [], _ => true
  | _ :: _, [] => false
  | a :: ps, b :: ls => a = b && hasPre ps ls

/-- Auxiliary scan for substring containment. -/
def strContainsL (pat : List Char) : List Char → Bool
  | [] => hasPre pat []
  | c :: t => hasPre pat (c :: t) || strContainsL pat t

/-- `strContains s pat` models the Python expression `pat in s`. -/
def strContains (s pat : String) : Bool := strContainsL pat.toList s.toList

/-- Keep the first occurrence of every element, dropping later duplicates. -/
def dedupFirst : List String → List String :=
  go []
where
  go (seen : List String) : List String → List String
    | [] => []
    | x :: t => if seen.contains x then go seen t else x :: go (x :: seen) t

/-- Join strings with a separator (Python `sep.join`). -/
def joinWith (sep : String) : List String → String
  | [] => ""
  | [x] => x
  | x :: xs => x ++ sep ++ joinWith sep xs

/-- The whitespace characters removed by Python `str.strip()` (ASCII
range; the records handled here are ASCII-clean). -/
def isPySpace (c : Char) : Bool :=
  c = ' ' || c = '\t' || c = '\n' || c = '\r' || c = '\x0b' || c = '\x0c'

/-- Python `s.strip()`. -/
def pyStrip (s : String) : String :=
  String.mk (((s.toList.dropWhile isPySpace).reverse.dropWhile isPySpace).reverse)

/-- Python `s.lower()` (ASCII case mapping). -/
def pyLower (s : String) : String :=
  String.mk (s.toList.map Char.toLower)

/- ------------------------------------------------------------------ -/
/- src/mfpfdzfppffzy/bind.py                                          -/
/- ------------------------------------------------------------------ -/

/-- Split at the first colon: models Python `s.split(":", maxsplit=1)`.
`none` corresponds to a one-element result (no colon present), which in
`process_bind` raises IndexError and is silently skipped. -/
def splitFirstColon (s : String) : Option (String × String) :=
  go [] s.toList
where
  go (acc : List Char) : List Char → Option (String × String)
    | [] => none
    | c :: rest =>
        if c = ':' then some (String.mk acc.reverse, String.mk rest)
        else go (c :: acc) rest

/-- Models `re.split(r"(?<!\\),", s)`: split on every comma that is not
preceded by a backslash.  The lookbehind inspects the character of the
original string, so the previous character is tracked across splits. -/
def splitUnescComma (s : String) : List String :=
  go none [] s.toList
where
  go (prev : Option Char) (cur : List Char) : List Char → List String
    | [] => [String.mk cur.reverse]
    | c :: rest =>
        if c = ',' && prev != some '\\' then
          String.mk cur.reverse :: go (some c) [] rest
        else go (some c) (c :: cur) rest

/-- Models matching `MFP_KB_RE = ^mfp\((.*)\)$` inside the group-2 text of
`MFP_BIND_RE = (?:^|,)([^:]+):(mfp\([^\)]*\))` under `re.match`:
the text after `mfp(` must contain a closing parenthesis; the body is the
run of non-`)` characters after `mfp(` (group 2 stops at the first `)`;
`re.match` permits trailing text after it). -/
def mfpActionBody (rest : List Char) : Option String :=
  match rest with
  | 'm' :: 'f' :: 'p' :: '(' :: t =>
      let body := t.takeWhile (fun c => c ≠ ')')
      if body.length < t.length then some (String.mk body) else none
  | _ => none

/-- Models `MFP_BIND_RE.match(bind_str)` followed by the `MFP_KB_RE`
extraction in `process_match`: the key is the (non-empty) run of
characters before the first colon (`[^:]+` cannot cross a colon, so
backtracking never picks a later colon), the action body comes from
`mfpActionBody`.  The `(?:^|,)` alternative is subsumed: under `re.match`
the `^` branch succeeds whenever the `,` branch would. -/
def mfpBindMatch (s : String) : Option (String × String) :=
  match splitFirstColon s with
  | none => none
  | some (key, rest) =>
      if key = "" then none
      else
        match mfpActionBody rest.toList with
        | none => none
        | some body => some (key, body)

/-- `KeyBindings.cmd_temp`: the template `echo {} > ` followed by the fifo
path, applied to a command. -/
def cmd_temp (fifo cmd : String) : String := "echo " ++ cmd ++ " > " ++ fifo

/-- `KeyBindings.exec_temp`: wraps a shell fragment in `execute#...#`. -/
def exec_temp (c : String) : String := "execute#" ++ c ++ "#"

/-- Python `cmd_str.split("&&")`: split on each non-overlapping
occurrence of `&&`, scanning left to right. -/
def splitAmpAmp (s : String) : List String :=
  go [] s.toList
where
  go (cur : List Char) : List Char → List String
    | [] => [String.mk cur.reverse]
    | '&' :: '&' :: t => String.mk cur.reverse :: go [] t
    | c :: t => go (c :: cur) t

/-- `KeyBindings.get_multi_cmd`: split on `&&`, strip each part, template
each part with `cmd_temp`, join with ` && ` (original order preserved). -/
def get_multi_cmd (fifo cmd_str : String) : String :=
  joinWith " && " (((splitAmpAmp cmd_str).map pyStrip).map (cmd_temp fifo))

/-- One step of the `process_bind` / `process_match` coroutine pair for a
single piece of the comma-split bind string (the terminating
`processor.send(None)` only closes the inner coroutine and adds nothing). -/
def processPiece (fifo : String) (d : List (String × String)) (piece : String) :
    List (String × String) :=
  match mfpBindMatch piece with
  | some (key, body) =>
      let cmd :=
        if strContains body "&&" then get_multi_cmd fifo body
        else cmd_temp fifo body
      dictInsert key (exec_temp cmd) d
  | none =>
      match splitFirstColon piece with
      | some (key, val) => dictInsert key val d
      | none => d

/-- The bind.py `KeyBindings` object after `__init__`: the populated
`bind_dict` and the derived `bind_tuple`. -/
structure KeyBindings where
  fifo : String
  bind_dict : List (String × String)
  bind_tuple : List String
deriving DecidableEq

/-- `KeyBindings.__init__` / `populate_bind_tuple`: split the bind string
on unescaped commas, feed each piece through the processor, then build
`bind_tuple`: empty when no bindings were produced, otherwise a single
`--bind=key1:action1,...` argument. -/
def keyBindings (args fifo : String) : KeyBindings :=
  let d := (splitUnescComma args).foldl (processPiece fifo) []
  let pairs := d.map (fun p => p.1 ++ ":" ++ p.2)
  { fifo := fifo
    bind_dict := d
    bind_tuple :=
      if pairs.isEmpty then []
      else ["--bind=" ++ joinWith "," pairs] }

/-- The single-quote character, written via its code point. -/
def quoteChar : Char := Char.ofNat 39

/-- CPython `repr` of a str containing neither quotes nor backslashes. -/
def pyStrRepr (s : String) : String :=
  String.mk (quoteChar :: s.toList ++ [quoteChar])

/-- CPython `repr` of a tuple of such strings: `()` when empty, a trailing
comma for a 1-tuple. -/
def pyTupleRepr : List String → String
  | [] => "()"
  | [x] => "(" ++ pyStrRepr x ++ ",)"
  | xs => "(" ++ joinWith ", " (xs.map pyStrRepr) ++ ")"

/-- Python `tuple(s)` for a string `s`: the tuple of its one-character
strings. -/
def tupleOfStr (s : String) : List String :=
  s.toList.map (fun c => String.mk [c])

/- ------------------------------------------------------------------ -/
/- src/mfpfdzfppffzy/views.py : ViewSettings                          -/
/- ------------------------------------------------------------------ -/

/-- `ViewSettings` from views.py.  `cmd` elements are `Option String`
because `FilterView.append_filters_to_list` appends selection values that
can be Python `None`.  `header_str` is `Option String` because the header
setter can assign a selection value that is `None`; it is initialised to
`some ""` (the Python empty string). -/
structure ViewSettings where
  cmd : List (Option String)
  out_type_dict : Bool
  the_strip : Bool
  sort_field : Option String
  keybinds : List String
  dynamic_headers : Nat
  header_str : Option String
  additional_args : List String
deriving DecidableEq

/-- `ViewSettings.__init__`.  The source line
`self.keybinds = tuple(str(keybinds))` turns the *string representation*
of the keybinds argument into a tuple of one-character strings: `str` of
a bind.py `KeyBindings` object falls back to its `__repr__`, which is
`repr(self.bind_tuple)`, and `str(None)` is `"None"`. -/
def viewSettingsInit (cmd : List (Option String)) (keybinds : Option KeyBindings)
    (sort_field : Option String) (dynamic_headers : Nat) (the_strip : Bool) :
    ViewSettings :=
  { cmd := cmd
    out_type_dict := true
    the_strip := the_strip
    sort_field := sort_field
    keybinds := tupleOfStr (match keybinds with
      | none => "None"
      | some kb => pyTupleRepr kb.bind_tuple)
    dynamic_headers := dynamic_headers
    header_str := some ""
    additional_args := [] }

/-- `ViewSettings.header`: a two-element `--header` pair when `header_str`
is truthy, nothing when it is `None` or the empty string. -/
def ViewSettings.header (vs : ViewSettings) : List String :=
  match vs.header_str with
  | none => []
  | some s => if s = "" then [] else ["--header", s]

/- ------------------------------------------------------------------ -/
/- Records and sort keys                                               -/
/- ------------------------------------------------------------------ -/

/-- An mpd record: a Python dict from tag name to string value. -/
abbrev Record : Type := List (String × String)

/-- The `ARTIST_PREFIX_MATCHER` regex `^the (.+)` with IGNORECASE applied
to a sort value: when the value starts with a definite article (in any
case) followed by a space and at least one further character, the sort
key is the lower-cased remainder, otherwise the lower-cased value. -/
def theStripKey (s : String) : String :=
  if (String.mk (s.toList.take 4)).toLower = "the " && s.length > 4 then
    (String.mk (s.toList.drop 4)).toLower
  else s.toLower

/-- `ViewSettings.sort_func` for `out_type == str` (plain listing
entries): lower-cased value, with optional the-stripping. -/
def sortKeyStr (the_strip : Bool) (x : String) : String :=
  if the_strip then theStripKey x else x.toLower

/-- `ViewSettings.sort_func` for `out_type == dict` (find records):
the key is extracted from the record under `sort_field`.  The Python code
indexes `x[self.sort_field]`; a missing field would raise KeyError, which
the callers prevent by requesting the sort field through `required_tags`,
so the total embedding defaults to the empty string. -/
def sortKeyDict (the_strip : Bool) (sort_field : String) (x : Record) : String :=
  sortKeyStr the_strip ((alookup x sort_field).getD "")

/- ------------------------------------------------------------------ -/
/- views.py : output-line formatting                                   -/
/- ------------------------------------------------------------------ -/

/-- Python `int(x)` on a string: optional surrounding whitespace, an
optional sign, then a non-empty run of decimal digits; `none` models the
raised ValueError.  (Underscore digit grouping is not modelled.) -/
def pyParseInt (s : String) : Option Int :=
  let t := (pyStrip s).toList
  match t with
  | '+' :: ds => digitsVal ds
  | '-' :: ds => (digitsVal ds).map (fun n => -n)
  | ds => digitsVal ds
where
  digitsVal (ds : List Char) : Option Int :=
    if ds ≠ [] && ds.all Char.isDigit then
      some (ds.foldl (fun n c => n * 10 + ((c.toNat : Int) - 48)) 0)
    else none

/-- `lax_int` (mfpfdzfppffzy.py): `int(x)`, with ValueError giving 0. -/
def lax_int (x : String) : Int :=
  match pyParseInt x with
  | some n => n
  | none => 0

/-- Python `"{:02}".format(n)` for an int: pad with zeros to width 2.
Only one-character representations (the digits 0–9) are ever padded;
a negative value already has width at least 2. -/
def format02 (n : Int) : String :=
  let s := toString n
  if s.length < 2 then "0" ++ s else s

/-- `get_track_output_line`: `"{:02} - {}"` from the record fields
`track` and `title`.  A record missing either key makes the Python code
raise KeyError, modelled by `none`.  (The ignored `*args` parameter is
omitted.) -/
def get_track_output_line (find_dict : Record) : Option String :=
  match alookup find_dict "track", alookup find_dict "title" with
  | some tr, some ti => some (format02 (lax_int tr) ++ " - " ++ ti)
  | _, _ => none

/-- The literal appended by truncation in `get_formatted_output_line`.
The source file stores the UTF-8 bytes of a double-encoded ellipsis, so
the Python string literal holds the three characters U+00E2 U+20AC U+00A6
(the mojibake of U+2026), not a single ellipsis character. -/
def ellipsisLit : String := "\u00e2\u20ac\u00a6"

/-- Left-justify to width `w` with spaces: Python `x.ljust(w)`. -/
def ljust (x : String) (w : Nat) : String :=
  x ++ String.mk (List.replicate (w - x.length) ' ')

/-- `get_formatted_output_line`.  The terminal width reported by
`shutil.get_terminal_size()` is the oracle parameter `termW`.  Python
computes `okay_w = termW - 4` over the integers and then clamps it up to
`min_w = 4 * len(args)`; since `min_w > 0` for non-empty `args`, the
truncating Nat subtraction agrees with the clamp.  `item_w` is
`int(okay_w / len(args))`, a floor of non-negative values (an empty
`args` raises ZeroDivisionError in Python; the claim restricts to
non-empty input). -/
def get_formatted_output_line (termW : Nat) (args : List String) : String :=
  let min_w := args.length * 4
  let okay_w := if termW - 4 ≥ min_w then termW - 4 else min_w
  let item_w := okay_w / args.length
  let output := args.map (fun x =>
    if x.length > item_w - 1 then String.mk (x.toList.take (item_w - 2)) ++ ellipsisLit
    else x)
  String.join (output.map (fun x => ljust x item_w))

/-- `get_tag_output_line`: `get_formatted_output_line` over the named
record fields in order (fields are always requested via `required_tags`,
so the total embedding defaults a missing field to the empty string). -/
def get_tag_output_line (termW : Nat) (find_dict : Record) (tags : List String) : String :=
  get_formatted_output_line termW (tags.map (fun t => (alookup find_dict t).getD ""))

/- ------------------------------------------------------------------ -/
/- views.py : duplicate disambiguation                                 -/
/- ------------------------------------------------------------------ -/

/-- Read a record display key: `x["fzf_string"]`.  All callers assign the
key first, so the total embedding defaults to the empty string where
Python would raise KeyError. -/
def fzfStr (r : Record) : String := (alookup r "fzf_string").getD ""

/-- The literal `"\x0000"` from `adapt_find_duplicates`: in Python (and
in this Lean literal) `\x` consumes exactly two hex digits, so the string
is the NUL character followed by the two characters `00`. -/
def nulSuffix : String := "\x0000"

/-- `s * n` for the suffix string. -/
def repeatStr (s : String) (n : Nat) : String :=
  String.join (List.replicate n s)

/-- One pass of the inner loop of `adapt_find_duplicates` for one
duplicated key `dstr`: every record whose current key equals `dstr` gets
`nulSuffix` appended `i` times, where `i` counts the matches seen so far
(the lazy `filter` tests each record exactly once, in list order). -/
def suffixPass (dstr : String) (l : List Record) : List Record :=
  go 0 l
where
  go (i : Nat) : List Record → List Record
    | [] => []
    | r :: t =>
        if fzfStr r = dstr then
          dictInsert "fzf_string" (fzfStr r ++ repeatStr nulSuffix i) r :: go (i + 1) t
        else r :: go i t

/-- `adapt_find_duplicates`: collect the display keys occurring more than
once, then run one suffixing pass per duplicated key.  Python iterates
the duplicated keys as a `set` in unspecified order; the embedding fixes
first-occurrence order (the claims are settled on inputs with at most one
duplicated key, where the order is irrelevant). -/
def adapt_find_duplicates (find_list : List Record) : List Record :=
  let fzf_strs := find_list.map fzfStr
  let dup_strs := dedupFirst (fzf_strs.filter (fun x => fzf_strs.count x > 1))
  dup_strs.foldl (fun cur dstr => suffixPass dstr cur) find_list

/-- `add_entry_to_dict` applied through `add_entries_to_list`: assign
`fzf_string` on every record, then disambiguate duplicates. -/
def add_entries_to_list (find_list : List Record) (entry_func : Record → String) :
    List Record :=
  adapt_find_duplicates (find_list.map (fun r => dictInsert "fzf_string" (entry_func r) r))

/- ------------------------------------------------------------------ -/
/- views.py : the fzf view constructors                                -/
/- ------------------------------------------------------------------ -/

/-- Python `s.strip("\n")`: remove leading and trailing newlines. -/
def stripNl (s : String) : String :=
  String.mk (((s.toList.dropWhile (fun c => c = '\n')).reverse.dropWhile
    (fun c => c = '\n')).reverse)

/-- `create_view`: pipe the joined items to fzf and interpret its result.
The selector is external, so its observable behaviour is given by the
oracle parameters `fzf_out` (captured stdout) and `fzf_rc` (exit status):
on status 0 the newline-stripped stdout is returned, otherwise `None`. -/
def create_view (items : List String) (vs : ViewSettings)
    (fzf_out : String) (fzf_rc : Int) : Option String :=
  let _ := joinWith "\n" items
  let _ := vs.keybinds ++ vs.header ++ vs.additional_args
  if fzf_rc = 0 then some (stripNl fzf_out) else none

/-- `create_plain_view`: sort the (string) items when a sort field is set
(`container_view` sets `out_type = str` before calling, so `sort_func`
takes the string branch), then run `create_view`.  The source never
returns the `create_view` result — the function body ends after the call,
so Python returns `None` unconditionally. -/
def create_plain_view (items : List String) (vs : ViewSettings)
    (fzf_out : String) (fzf_rc : Int) : Option String :=
  let items :=
    match vs.sort_field with
    | some _ =>
        items.mergeSort (fun a b =>
          decide (sortKeyStr vs.the_strip a ≤ sortKeyStr vs.the_strip b))
    | none => items
  let _ := create_view items vs fzf_out fzf_rc
  none

/-- `create_view_with_custom_entries`: assign display keys and
disambiguate, sort by `sort_field` when set (records, so `sort_func`
takes the dict branch), pipe the display keys to fzf.  As in
`create_plain_view`, the source discards the `create_view` result and
falls off the end, returning `None` unconditionally. -/
def create_view_with_custom_entries (items : List Record)
    (entry_func : Record → String) (vs : ViewSettings)
    (fzf_out : String) (fzf_rc : Int) : Option String :=
  let items := add_entries_to_list items entry_func
  let items :=
    match vs.sort_field with
    | some sf =>
        items.mergeSort (fun a b =>
          decide (sortKeyDict vs.the_strip sf a ≤ sortKeyDict vs.the_strip sf b))
    | none => items
  let entries := items.map fzfStr
  let _ := create_view entries vs fzf_out fzf_rc
  none

/- ------------------------------------------------------------------ -/
/- src/mfpfdzfppffzy/client.py : required tags                         -/
/- ------------------------------------------------------------------ -/

/-- `ConnectClient.ensure_tags`: iterate the requested tags, adding the
empty string under every tag not yet present.  The Python `filter`
evaluates `title.keys()` lazily, so each tag is tested against the dict
as mutated so far, which the fold reproduces. -/
def ensure_tags (required_tags : List String) (title : Record) : Record :=
  match required_tags with
  | [] => title
  | tag :: rest =>
      ensure_tags rest (if (alookup title tag).isSome then title else title ++ [(tag, "")])

/-- `ConnectClient.find` under the `add_required_tags` decorator.  The mpd
server response is the oracle parameter `upstream`.  `required_tags`
defaults to `False` when the kwarg is absent; the empty list models every
falsy value (absent kwarg or empty collection), in which case the
upstream result passes through untouched. -/
def ConnectClient.find (upstream : List Record) (required_tags : List String) :
    List Record :=
  if required_tags.isEmpty then upstream
  else upstream.map (ensure_tags required_tags)

/-- `ConnectClient.search`: identical post-processing to `find` (the
case-insensitive matching happens upstream, inside the oracle). -/
def ConnectClient.search (upstream : List Record) (required_tags : List String) :
    List Record :=
  ConnectClient.find upstream required_tags

/- ------------------------------------------------------------------ -/
/- views.py : FilterView                                               -/
/- ------------------------------------------------------------------ -/

/-- A fallback descriptor for out-of-range indexing (Python would raise
IndexError there; `pass_through` only indexes in range). -/
def defaultVS : ViewSettings := viewSettingsInit [] none none 0 false

/-- `FilterView` from views.py.  `state` is a Python int, so it is
modelled by `Int` (the source lets it reach -1).  `selections` is the
per-state selection dict; its values are `Option String` because the
`sel` setter stores the stage outcome even when it is `None`.
`final_state` is stored as `len(views)` at `__init__` and `views` is
never reassigned, so it is recovered as `views.length`. -/
structure FilterView where
  views : List ViewSettings
  dynamic_headers : Bool
  final_view : String
  state : Int
  selections : List (Int × Option String)
deriving DecidableEq

/-- `FilterView.__init__`: state 0, empty selections. -/
def FilterView.init (views : List ViewSettings) (dynamic_headers : Bool)
    (final_view : String := "track_view") : FilterView :=
  { views := views
    dynamic_headers := dynamic_headers
    final_view := final_view
    state := 0
    selections := [] }

/-- `FilterView.final_state = len(self.views)`. -/
def FilterView.final_state (fv : FilterView) : Int := fv.views.length

/-- `FilterView.active_view = self.views[self.state]` (indexing is only
reached with `0 <= state < len(views)` inside `pass_through`). -/
def FilterView.active_view (fv : FilterView) : ViewSettings :=
  (fv.views.get? fv.state.toNat).getD defaultVS

/-- `FilterView.append_filters_to_list`: for every `(state, sel)` item of
the selections dict, in insertion order, append `views[state].cmd[0]` and
then the selection value (which can be `None`). -/
def FilterView.append_filters (fv : FilterView) : List (Option String) :=
  fv.selections.foldl
    (fun l p =>
      l ++ [((fv.views.get? p.1.toNat).getD defaultVS).cmd.headD none, p.2]) []

/-- `FilterView.get_adapted_view`: `deepcopy(self.active_view)` gives a
fresh value, so the header update and the filter append below land on the
copy and never on the descriptor stored in `self.views`.  The dynamic
header is the previous stage selection `self.selections[self.state - 1]`
(present in every reachable call; a missing key would raise KeyError). -/
def FilterView.get_adapted_view (fv : FilterView) : ViewSettings :=
  let view := fv.active_view
  let view :=
    if fv.dynamic_headers ∧ fv.state ≠ 0 then
      { view with header_str := (alookup fv.selections (fv.state - 1)).getD none }
    else view
  { view with cmd := view.cmd ++ fv.append_filters }

/-- `FilterView.call_view_function`: build the adapted copy, run the
stage view function on it (`container_view` for every stage before the
last, the function named by `final_view` for the last stage); the view
functions execute the external selector, so the stage outcome is the
oracle parameter `outcome`, stored through the `sel` setter.  Their
mutations (`update_headers`, `out_type`, sorting) touch only the copy. -/
def FilterView.call_view_function (fv : FilterView) (outcome : Option String) :
    FilterView :=
  let view := fv.get_adapted_view
  let _ := view
  { fv with selections := dictInsert fv.state outcome fv.selections }

/-- `FilterView.move_forward`. -/
def FilterView.move_forward (fv : FilterView) : FilterView :=
  { fv with state := fv.state + 1 }

/-- `FilterView.move_backward`. -/
def FilterView.move_backward (fv : FilterView) : FilterView :=
  { fv with state := fv.state - 1 }

/-- One iteration of the `pass_through` loop body: run the stage, then
branch on `self.sel` — which reads back the outcome just stored. -/
def stepFV (fv : FilterView) (o : Option String) : FilterView :=
  let fv1 := fv.call_view_function o
  if o.isSome then fv1.move_forward else fv1.move_backward

/-- `FilterView.pass_through`: loop while `state in range(0, final_state)`,
consuming one stage outcome per iteration.  `some fv` is the object state
when the loop exits; `none` means the supplied outcome sequence was
exhausted with the loop still running. -/
def pass_through (fv : FilterView) (outs : List (Option String)) : Option FilterView :=
  if 0 ≤ fv.state ∧ fv.state < (fv.views.length : Int) then
    match outs with
    | [] => none
    | o :: rest => pass_through (stepFV fv o) rest
  else some fv

/-- The object states traversed by a `pass_through` run: the initial
state followed by the state after each executed loop iteration. -/
def runTrace (fv : FilterView) (outs : List (Option String)) : List FilterView :=
  fv ::
    (if 0 ≤ fv.state ∧ fv.state < (fv.views.length : Int) then
      match outs with
      | [] => []
      | o :: rest => runTrace (stepFV fv o) rest
    else [])

/-- The stage invocations a `pass_through` run actually executes: for each
loop iteration, the state it ran at and whether the outcome was a
selection (`true`) or a cancellation (`false`). -/
def consumedSteps (fv : FilterView) (outs : List (Option String)) :
    List (Int × Bool) :=
  if 0 ≤ fv.state ∧ fv.state < (fv.views.length : Int) then
    match outs with
    | [] => []
    | o :: rest => (fv.state, o.isSome) :: consumedSteps (stepFV fv o) rest
  else []

/-- A concrete stage descriptor used to instantiate theorems, built the
way `cli.run_with_args` builds one (no keybinds object, no sort field). -/
def sampleVS : ViewSettings := viewSettingsInit [some "list", some "artist"] none none 0 false

/- ================================================================== -/
/- Theorems                                                            -/
/- ================================================================== -/

theorem alookup_dictInsert_self {κ β : Type} [DecidableEq κ] (k : κ) (v : β)
    (l : List (κ × β)) : alookup (dictInsert k v l) k = some v := by
  induction l with
  | nil => simp [dictInsert, alookup]
  | cons hd t ih =>
    obtain ⟨k1, v1⟩ := hd
    by_cases h : k1 = k
    · simp [dictInsert, h, alookup]
    · simp [dictInsert, h, alookup, ih]

theorem mem_dictInsert {κ β : Type} [DecidableEq κ] (k : κ) (v : β)
    (l : List (κ × β)) (p : κ × β) (hp : p ∈ dictInsert k v l) :
    p = (k, v) ∨ p ∈ l := by
  induction l with
  | nil => simpa [dictInsert] using hp
  | cons hd t ih =>
    obtain ⟨k1, v1⟩ := hd
    by_cases h : k1 = k
    · simp only [dictInsert, if_pos h, List.mem_cons] at hp
      rcases hp with h1 | h2
      · exact Or.inl h1
      · exact Or.inr (List.mem_cons_of_mem _ h2)
    · simp only [dictInsert, if_neg h, List.mem_cons] at hp
      rcases hp with h1 | h2
      · exact Or.inr (h1 ▸ List.mem_cons_self _ _)
      · rcases ih h2 with h3 | h4
        · exact Or.inl h3
        · exact Or.inr (List.mem_cons_of_mem _ h4)

theorem alookup_append_some {κ β : Type} [DecidableEq κ] (l1 l2 : List (κ × β))
    (k : κ) (v : β) (h : alookup l1 k = some v) : alookup (l1 ++ l2) k = some v := by
  induction l1 with
  | nil => simp [alookup] at h
  | cons hd t ih =>
    obtain ⟨k1, v1⟩ := hd
    by_cases hk : k1 = k
    · simpa [alookup, hk] using h
    · simp only [alookup, if_neg hk] at h ⊢
      exact ih h

theorem alookup_append_none {κ β : Type} [DecidableEq κ] (l1 l2 : List (κ × β))
    (k : κ) (h : alookup l1 k = none) : alookup (l1 ++ l2) k = alookup l2 k := by
  induction l1 with
  | nil => simp [alookup]
  | cons hd t ih =>
    obtain ⟨k1, v1⟩ := hd
    by_cases hk : k1 = k
    · simp [alookup, hk] at h
    · simp only [alookup, if_neg hk] at h ⊢
      exact ih h

/-- C2 (code bug): `create_view` itself honours the exit-status contract
(status 0 returns the newline-stripped selection, non-zero returns
`None`), but `create_plain_view` and `create_view_with_custom_entries`
never return the `create_view` result — the source lacks a `return`
statement — so the stage view functions built on them yield `None` even
when the selector exits with status 0 and a selection. -/
theorem c2_stage_view_return_dropped :
    create_view ["foo", "bar"] sampleVS "foo\n" 0 = some "foo"
    ∧ create_view ["foo", "bar"] sampleVS "" 1 = none
    ∧ create_plain_view ["foo", "bar"] sampleVS "foo\n" 0 = none
    ∧ create_view_with_custom_entries [[("title", "x")]]
        (fun r => (alookup r "title").getD "") sampleVS "x\n" 0 = none := by
  decide

/-- C3 (code bug): `adapt_find_duplicates` suffixes duplicates in a
single pass with no re-check, so a record whose key already equals a
suffixed form collides with the freshly suffixed duplicate: on keys
`["a", "a", "a\x0000"]` the result has only 2 distinct keys for 3
records, although the key that was unique beforehand is untouched. -/
theorem c3_dedup_collision :
    (adapt_find_duplicates
        [[("fzf_string", "a")], [("fzf_string", "a")], [("fzf_string", "a\x0000")]]).map fzfStr
      = ["a", "a\x0000", "a\x0000"]
    ∧ (dedupFirst ((adapt_find_duplicates
        [[("fzf_string", "a")], [("fzf_string", "a")], [("fzf_string", "a\x0000")]]).map fzfStr)).length = 2
    ∧ (2 : Nat) ≠ 3 := by
  decide

/-- C5: compiling `ctrl-a:mfp(cmd-1),ctrl-b:x-1` against channel path
`/tmp/ch` yields a single `--bind=` argument containing `ctrl-b:x-1`
verbatim and a `ctrl-a` action embedding `echo cmd-1 > /tmp/ch`; the
chained action `mfp(cmd-1 && cmd-2)` compiles to the two echo fragments,
each targeting the channel path, joined by `&&` in the original order. -/
theorem c5_keybind_compile :
    (keyBindings "ctrl-a:mfp(cmd-1),ctrl-b:x-1" "/tmp/ch").bind_tuple
        = ["--bind=ctrl-a:execute#echo cmd-1 > /tmp/ch#,ctrl-b:x-1"]
    ∧ strContains ((keyBindings "ctrl-a:mfp(cmd-1),ctrl-b:x-1" "/tmp/ch").bind_tuple.headD "")
        "ctrl-b:x-1" = true
    ∧ strContains ((keyBindings "ctrl-a:mfp(cmd-1),ctrl-b:x-1" "/tmp/ch").bind_tuple.headD "")
        "ctrl-a:execute#echo cmd-1 > /tmp/ch#" = true
    ∧ strContains ((keyBindings "ctrl-a:mfp(cmd-1),ctrl-b:x-1" "/tmp/ch").bind_tuple.headD "")
        "echo cmd-1 > /tmp/ch" = true
    ∧ (keyBindings "ctrl-a:mfp(cmd-1 && cmd-2)" "/tmp/ch").bind_dict
        = [("ctrl-a", "execute#echo cmd-1 > /tmp/ch && echo cmd-2 > /tmp/ch#")]
    ∧ get_multi_cmd "/tmp/ch" "cmd-1 && cmd-2"
        = cmd_temp "/tmp/ch" "cmd-1" ++ " && " ++ cmd_temp "/tmp/ch" "cmd-2" := by
  decide

/-- C6 (code bug): a binding specification producing no bindings yields
an empty `bind_tuple` — so the `KeyBindings` object itself contributes
nothing — but `ViewSettings.__init__` stores `tuple(str(keybinds))`,
which for the empty `KeyBindings` is the two characters of `repr(())`:
the selector receives the junk arguments `(` and `)` instead of
nothing. -/
theorem c6_empty_bindings_viewsettings :
    (keyBindings "" "/tmp/ch").bind_tuple = []
    ∧ (viewSettingsInit [some "list"] (some (keyBindings "" "/tmp/ch")) none 0 false).keybinds
        = ["(", ")"]
    ∧ (viewSettingsInit [some "list"] (some (keyBindings "" "/tmp/ch")) none 0 false).keybinds
        ≠ [] := by
  decide

/-- C8 (code bug): for terminal width 10 and the single value `abcdefg`
the column width is 6, but the truncated segment is `abcd` followed by
the three mojibake characters of the broken ellipsis — 7 characters, one
more than the column width, ending in U+00A6 rather than a single
ellipsis character U+2026. -/
theorem c8_mojibake_truncation :
    get_formatted_output_line 10 ["abcdefg"] = "abcd" ++ ellipsisLit
    ∧ (get_formatted_output_line 10 ["abcdefg"]).length = 7
    ∧ ¬ (get_formatted_output_line 10 ["abcdefg"]).length ≤ 6
    ∧ (get_formatted_output_line 10 ["abcdefg"]).toList.getLast? = some (Char.ofNat 166)
    ∧ Char.ofNat 166 ≠ Char.ofNat 8230 := by
  decide

/-- C9 (counterexample): a record without a `track` key makes
`get_track_output_line` raise KeyError (modelled `none`) instead of
coercing the missing value to 0. -/
theorem c9_missing_track_raises :
    get_track_output_line [("title", "T")] = none
    ∧ get_track_output_line [("title", "T")] ≠ some "00 - T" := by
  decide

/-- C9 (amended): when the record carries both `track` and `title` keys,
`get_track_output_line` returns `"{:02} - {}"` of `lax_int track` and the
title and never raises; non-numeric track values coerce to 0 through
`lax_int`. -/
theorem c9_track_line_amended (r : Record) (tr ti : String)
    (htr : alookup r "track" = some tr) (hti : alookup r "title" = some ti) :
    get_track_output_line r = some (format02 (lax_int tr) ++ " - " ++ ti) := by
  unfold get_track_output_line
  rw [htr, hti]

theorem ensure_tags_preserves (tags : List String) (r : Record) (k : String)
    (h : (alookup r k).isSome = true) :
    alookup (ensure_tags tags r) k = alookup r k := by
  induction tags generalizing r with
  | nil => rfl
  | cons t ts ih =>
    rw [ensure_tags]
    by_cases ht : (alookup r t).isSome = true
    · rw [if_pos ht]
      exact ih r h
    · rw [if_neg ht]
      have hs : alookup (r ++ [(t, "")]) k = alookup r k := by
        obtain ⟨v, hv⟩ := Option.isSome_iff_exists.mp h
        rw [alookup_append_some r [(t, "")] k v hv, hv]
      have h2 : (alookup (r ++ [(t, "")]) k).isSome = true := by rw [hs]; exact h
      exact (ih (r ++ [(t, "")]) h2).trans hs

theorem ensure_tags_present (tags : List String) (r : Record) (k : String)
    (hk : k ∈ tags) :
    (alookup (ensure_tags tags r) k).isSome = true
    ∧ (alookup r k = none → alookup (ensure_tags tags r) k = some "") := by
  induction tags generalizing r with
  | nil => cases hk
  | cons t ts ih =>
    rw [ensure_tags]
    by_cases hrt : (alookup r t).isSome = true
    · rw [if_pos hrt]
      by_cases hkt : k = t
      · subst hkt
        have he : alookup (ensure_tags ts r) k = alookup r k :=
          ensure_tags_preserves ts r k hrt
        refine ⟨by rw [he]; exact hrt, fun hnone => ?_⟩
        rw [hnone] at hrt; simp at hrt
      · have hkts : k ∈ ts := by
          rcases List.mem_cons.mp hk with h1 | h2
          · exact absurd h1 hkt
          · exact h2
        exact ih r hkts
    · rw [if_neg hrt]
      have hrtn : alookup r t = none := by
        cases hv : alookup r t with
        | none => rfl
        | some v => rw [hv] at hrt; simp at hrt
      by_cases hkt : k = t
      · subst hkt
        have hbase : alookup (r ++ [(k, "")]) k = some "" := by
          rw [alookup_append_none r [(k, "")] k hrtn]
          simp [alookup]
        have hb2 : (alookup (r ++ [(k, "")]) k).isSome = true := by
          rw [hbase]; rfl
        have he : alookup (ensure_tags ts (r ++ [(k, "")])) k
            = alookup (r ++ [(k, "")]) k :=
          ensure_tags_preserves ts (r ++ [(k, "")]) k hb2
        exact ⟨by rw [he, hbase]; rfl, fun _ => by rw [he, hbase]⟩
      · have hkts : k ∈ ts := by
          rcases List.mem_cons.mp hk with h1 | h2
          · exact absurd h1 hkt
          · exact h2
        have hsame : alookup (r ++ [(t, "")]) k = alookup r k := by
          cases hv : alookup r k with
          | none =>
            rw [alookup_append_none r [(t, "")] k hv]
            simp only [alookup]
            rw [if_neg (fun h => hkt h.symm)]
          | some v => exact alookup_append_some r [(t, "")] k v hv
        have hr2 := ih (r ++ [(t, "")]) hkts
        refine ⟨hr2.1, fun hnone => hr2.2 ?_⟩
        rw [hsame, hnone]

/-- C4: with a non-empty `required_tags` collection, `find` (and
`search`, which shares the contract) maps `ensure_tags` over the
upstream records: every requested field is present on every returned
record, a field missing upstream defaults to the empty string, and
fields present upstream keep their values. -/
theorem c4_tag_completeness (upstream : List Record) (tags : List String)
    (htags : tags ≠ []) :
    ConnectClient.find upstream tags = upstream.map (ensure_tags tags)
    ∧ (∀ r ∈ ConnectClient.find upstream tags, ∀ tag ∈ tags,
        (alookup r tag).isSome = true)
    ∧ (∀ r0 : Record, ∀ tag ∈ tags, alookup r0 tag = none →
        alookup (ensure_tags tags r0) tag = some "")
    ∧ (∀ (r0 : Record) (k : String) (v : String), alookup r0 k = some v →
        alookup (ensure_tags tags r0) k = some v)
    ∧ ConnectClient.search upstream tags = ConnectClient.find upstream tags := by
  have hne : tags.isEmpty = false := by
    cases tags with
    | nil => exact absurd rfl htags
    | cons a l => rfl
  have hmap : ConnectClient.find upstream tags = upstream.map (ensure_tags tags) := by
    rw [ConnectClient.find, hne]
    rfl
  refine ⟨hmap, ?_, ?_, ?_, rfl⟩
  · intro r hr tag htag
    rw [hmap] at hr
    obtain ⟨r0, _, hr0⟩ := List.mem_map.mp hr
    rw [← hr0]
    exact (ensure_tags_present tags r0 tag htag).1
  · intro r0 tag htag hnone
    exact (ensure_tags_present tags r0 tag htag).2 hnone
  · intro r0 k v hv
    rw [ensure_tags_preserves tags r0 k (by rw [hv]; rfl), hv]

/-- Witness for C4 at one upstream record lacking the requested `track`
field: the returned record carries `track` with the empty string, and the
field present upstream is preserved. -/
theorem c4_tag_completeness_witness :
    (["track"] : List String) ≠ []
    ∧ alookup (ensure_tags ["track"] [("artist", "A")]) "track" = some ""
    ∧ alookup (ensure_tags ["track"] [("artist", "A")]) "artist" = some "A"
    ∧ ConnectClient.find [[("artist", "A")]] ["track"]
        = [[("artist", "A")]].map (ensure_tags ["track"]) := by
  have h := c4_tag_completeness [[("artist", "A")]] ["track"] (by decide)
  exact ⟨by decide,
    h.2.2.1 [("artist", "A")] "track" (by decide) (by decide),
    h.2.2.2.1 [("artist", "A")] "artist" "A" (by decide),
    h.1⟩

theorem stepFV_views (fv : FilterView) (o : Option String) :
    (stepFV fv o).views = fv.views := by
  cases o <;> rfl

theorem stepFV_state (fv : FilterView) (o : Option String) :
    (stepFV fv o).state = if o.isSome then fv.state + 1 else fv.state - 1 := by
  cases o <;> rfl

theorem stepFV_selections (fv : FilterView) (o : Option String) :
    (stepFV fv o).selections = dictInsert fv.state o fv.selections := by
  cases o <;> rfl

theorem init_state (views : List ViewSettings) (dh : Bool) :
    (FilterView.init views dh).state = 0 := rfl

theorem init_views (views : List ViewSettings) (dh : Bool) :
    (FilterView.init views dh).views = views := rfl

theorem pass_through_nil (fv : FilterView) :
    pass_through fv [] =
      if 0 ≤ fv.state ∧ fv.state < (fv.views.length : Int) then none else some fv := rfl

theorem pass_through_cons (fv : FilterView) (o : Option String)
    (rest : List (Option String)) :
    pass_through fv (o :: rest) =
      if 0 ≤ fv.state ∧ fv.state < (fv.views.length : Int) then
        pass_through (stepFV fv o) rest
      else some fv := rfl

theorem pass_through_exit (fv : FilterView) (outs : List (Option String))
    (h : ¬(0 ≤ fv.state ∧ fv.state < (fv.views.length : Int))) :
    pass_through fv outs = some fv := by
  cases outs with
  | nil => rw [pass_through_nil, if_neg h]
  | cons o rest => rw [pass_through_cons, if_neg h]

theorem runTrace_nil (fv : FilterView) : runTrace fv [] = [fv] := by
  rw [runTrace]
  split <;> rfl

theorem runTrace_cons (fv : FilterView) (o : Option String)
    (rest : List (Option String)) :
    runTrace fv (o :: rest) =
      fv :: (if 0 ≤ fv.state ∧ fv.state < (fv.views.length : Int) then
        runTrace (stepFV fv o) rest
      else []) := rfl

theorem consumedSteps_nil (fv : FilterView) : consumedSteps fv [] = [] := by
  rw [consumedSteps]
  split <;> rfl

theorem consumedSteps_cons (fv : FilterView) (o : Option String)
    (rest : List (Option String)) :
    consumedSteps fv (o :: rest) =
      if 0 ≤ fv.state ∧ fv.state < (fv.views.length : Int) then
        (fv.state, o.isSome) :: consumedSteps (stepFV fv o) rest
      else [] := rfl

theorem pass_through_views (outs : List (Option String)) :
    ∀ fv fv' : FilterView, pass_through fv outs = some fv' → fv'.views = fv.views := by
  induction outs with
  | nil =>
    intro fv fv' h
    by_cases hc : 0 ≤ fv.state ∧ fv.state < (fv.views.length : Int)
    · rw [pass_through_nil, if_pos hc] at h
      cases h
    · rw [pass_through_nil, if_neg hc] at h
      injection h with h1
      rw [← h1]
  | cons o rest ih =>
    intro fv fv' h
    by_cases hc : 0 ≤ fv.state ∧ fv.state < (fv.views.length : Int)
    · rw [pass_through_cons, if_pos hc] at h
      rw [ih (stepFV fv o) fv' h, stepFV_views]
    · rw [pass_through_cons, if_neg hc] at h
      injection h with h1
      rw [← h1]

theorem runTrace_views (outs : List (Option String)) :
    ∀ fv g : FilterView, g ∈ runTrace fv outs → g.views = fv.views := by
  induction outs with
  | nil =>
    intro fv g hg
    rw [runTrace_nil] at hg
    rcases List.mem_singleton.mp hg with h
    rw [h]
  | cons o rest ih =>
    intro fv g hg
    rw [runTrace_cons] at hg
    rcases List.mem_cons.mp hg with h | h
    · rw [h]
    · by_cases hc : 0 ≤ fv.state ∧ fv.state < (fv.views.length : Int)
      · rw [if_pos hc] at h
        rw [ih (stepFV fv o) g h, stepFV_views]
      · rw [if_neg hc] at h
        cases h

theorem runTrace_state_bounds (outs : List (Option String)) :
    ∀ fv : FilterView, -1 ≤ fv.state → fv.state ≤ (fv.views.length : Int) →
      ∀ g ∈ runTrace fv outs, -1 ≤ g.state ∧ g.state ≤ (fv.views.length : Int) := by
  induction outs with
  | nil =>
    intro fv h1 h2 g hg
    rw [runTrace_nil] at hg
    rw [List.mem_singleton.mp hg]
    exact ⟨h1, h2⟩
  | cons o rest ih =>
    intro fv h1 h2 g hg
    rw [runTrace_cons] at hg
    rcases List.mem_cons.mp hg with h | h
    · rw [h]; exact ⟨h1, h2⟩
    · by_cases hc : 0 ≤ fv.state ∧ fv.state < (fv.views.length : Int)
      · rw [if_pos hc] at h
        have hsb : -1 ≤ (stepFV fv o).state ∧
            (stepFV fv o).state ≤ ((stepFV fv o).views.length : Int) := by
          rw [stepFV_state, stepFV_views]
          rcases hc with ⟨hc1, hc2⟩
          cases o <;> simp <;> omega
        have := ih (stepFV fv o) hsb.1 hsb.2 g h
        rwa [stepFV_views] at this
      · rw [if_neg hc] at h
        cases h

theorem pass_through_state_le (outs : List (Option String)) :
    ∀ fv fv' : FilterView, pass_through fv outs = some fv' →
      fv'.state ≤ fv.state + ((outs.countP (fun o => o.isSome) : Nat) : Int) := by
  induction outs with
  | nil =>
    intro fv fv' h
    by_cases hc : 0 ≤ fv.state ∧ fv.state < (fv.views.length : Int)
    · rw [pass_through_nil, if_pos hc] at h
      cases h
    · rw [pass_through_nil, if_neg hc] at h
      injection h with h1
      rw [← h1]
      simp
  | cons o rest ih =>
    intro fv fv' h
    rw [List.countP_cons]
    by_cases hc : 0 ≤ fv.state ∧ fv.state < (fv.views.length : Int)
    · rw [pass_through_cons, if_pos hc] at h
      have := ih (stepFV fv o) fv' h
      rw [stepFV_state] at this
      cases o <;> simp at this ⊢ <;> omega
    · rw [pass_through_cons, if_neg hc] at h
      injection h with h1
      rw [← h1]
      have : (0 : Int) ≤ ((List.countP (fun o => o.isSome) rest : Nat) : Int) := by
        exact_mod_cast Nat.zero_le _
      split <;> omega

theorem pass_through_all_some (outs : List (Option String)) :
    ∀ fv : FilterView, (∀ o ∈ outs, o.isSome = true) → 0 ≤ fv.state →
      fv.state + (outs.length : Int) = (fv.views.length : Int) →
      ∃ fv', pass_through fv outs = some fv' ∧ fv'.state = (fv.views.length : Int) := by
  induction outs with
  | nil =>
    intro fv _ h0 hlen
    simp only [List.length_nil, Nat.cast_zero, add_zero] at hlen
    have hc : ¬(0 ≤ fv.state ∧ fv.state < (fv.views.length : Int)) := by omega
    exact ⟨fv, by rw [pass_through_nil, if_neg hc], hlen⟩
  | cons o rest ih =>
    intro fv hall h0 hlen
    simp only [List.length_cons] at hlen
    have hc : 0 ≤ fv.state ∧ fv.state < (fv.views.length : Int) := by
      push_cast at hlen
      constructor
      · exact h0
      · have : (0 : Int) ≤ (rest.length : Int) := by exact_mod_cast Nat.zero_le _
        omega
    have ho : o.isSome = true := hall o (List.mem_cons_self o rest)
    have hstep : (stepFV fv o).state = fv.state + 1 := by
      rw [stepFV_state, if_pos ho]
    have hrest : ∀ x ∈ rest, x.isSome = true :=
      fun x hx => hall x (List.mem_cons_of_mem o hx)
    have hlen' : (stepFV fv o).state + (rest.length : Int)
        = ((stepFV fv o).views.length : Int) := by
      rw [hstep, stepFV_views]
      push_cast at hlen ⊢
      omega
    obtain ⟨fv', h1, h2⟩ := ih (stepFV fv o) hrest (by omega) hlen'
    refine ⟨fv', ?_, ?_⟩
    · rw [pass_through_cons, if_pos hc]
      exact h1
    · rw [h2, stepFV_views]

theorem pass_through_abandon_iff (outs : List (Option String)) :
    ∀ fv : FilterView, 0 ≤ fv.state →
      ((∃ fv', pass_through fv outs = some fv' ∧ fv'.state < 0)
        ↔ ((0 : Int), false) ∈ consumedSteps fv outs) := by
  induction outs with
  | nil =>
    intro fv h0
    rw [consumedSteps_nil]
    simp only [List.not_mem_nil, iff_false, not_exists, not_and, not_lt]
    intro fv' h
    by_cases hc : 0 ≤ fv.state ∧ fv.state < (fv.views.length : Int)
    · rw [pass_through_nil, if_pos hc] at h
      cases h
    · rw [pass_through_nil, if_neg hc] at h
      injection h with h1
      rw [← h1]
      exact h0
  | cons o rest ih =>
    intro fv h0
    by_cases hc : 0 ≤ fv.state ∧ fv.state < (fv.views.length : Int)
    · rw [pass_through_cons, if_pos hc, consumedSteps_cons, if_pos hc, List.mem_cons]
      cases o with
      | some v =>
        have hstep : (stepFV fv (some v)).state = fv.state + 1 := by
          rw [stepFV_state]
          rfl
        have hih := ih (stepFV fv (some v)) (by omega)
        constructor
        · intro h
          exact Or.inr (hih.mp h)
        · intro h
          rcases h with h | h
          · exact absurd (congrArg Prod.snd h) (by simp)
          · exact hih.mpr h
      | none =>
        have hstep : (stepFV fv none).state = fv.state - 1 := by
          rw [stepFV_state]
          rfl
        by_cases h00 : fv.state = 0
        · have hexit : pass_through (stepFV fv none) rest = some (stepFV fv none) := by
            apply pass_through_exit
            rw [hstep, h00]
            simp
          constructor
          · intro _
            exact Or.inl (by rw [h00]; rfl)
          · intro _
            exact ⟨stepFV fv none, hexit, by rw [hstep, h00]; omega⟩
        · have hih := ih (stepFV fv none) (by omega)
          constructor
          · intro h
            exact Or.inr (hih.mp h)
          · intro h
            rcases h with h | h
            · exact absurd (congrArg Prod.fst h) (by simpa using fun he => h00 he.symm)
            · exact hih.mpr h
    · rw [pass_through_cons, if_neg hc, consumedSteps_cons, if_neg hc]
      simp only [List.not_mem_nil, iff_false, not_exists, not_and, not_lt]
      intro fv' h
      injection h with h1
      rw [← h1]
      exact h0

/-- C1 (amended): over an outcome sequence of length `N = len(views)`,
`pass_through` terminates in state `N` iff every outcome is a selection;
it terminates in a negative state — the abandoned outcome — iff some
executed stage invocation is a cancellation at stage 0; and every object
state reached satisfies `-1 ≤ state ≤ N` (the claim's lower bound 0 is
corrected to -1: a cancellation at stage 0 drives the state to -1 and
ends the run). -/
theorem c1_pass_through_amended (views : List ViewSettings) (dh : Bool)
    (outs : List (Option String)) (houts : outs.length = views.length) :
    ((∃ fv', pass_through (FilterView.init views dh) outs = some fv'
        ∧ fv'.state = (views.length : Int))
      ↔ (∀ o ∈ outs, o.isSome = true))
    ∧ ((∃ fv', pass_through (FilterView.init views dh) outs = some fv'
        ∧ fv'.state < 0)
      ↔ ((0 : Int), false) ∈ consumedSteps (FilterView.init views dh) outs)
    ∧ (∀ g ∈ runTrace (FilterView.init views dh) outs,
        -1 ≤ g.state ∧ g.state ≤ (views.length : Int)) := by
  refine ⟨⟨?_, ?_⟩, ?_, ?_⟩
  · rintro ⟨fv', hpt, hst⟩
    have hle := pass_through_state_le outs (FilterView.init views dh) fv' hpt
    rw [hst, init_state] at hle
    have hcle : outs.countP (fun o => o.isSome) ≤ outs.length :=
      List.countP_le_length _
    have hceq : outs.countP (fun o => o.isSome) = outs.length := by omega
    exact List.countP_eq_length.mp hceq
  · intro hall
    have hlen : (FilterView.init views dh).state + (outs.length : Int)
        = (((FilterView.init views dh).views.length : Nat) : Int) := by
      rw [init_state, init_views, houts]
      omega
    obtain ⟨fv', h1, h2⟩ :=
      pass_through_all_some outs (FilterView.init views dh) hall
        (by rw [init_state]) hlen
    exact ⟨fv', h1, by rw [h2, init_views]⟩
  · exact pass_through_abandon_iff outs (FilterView.init views dh)
      (by rw [init_state])
  · intro g hg
    have := runTrace_state_bounds outs (FilterView.init views dh)
      (by rw [init_state]; omega)
      (by rw [init_state, init_views]; exact_mod_cast Nat.zero_le _) g hg
    rwa [init_views] at this

/-- Witness for C1 (amended) with two stages and two selections: the run
succeeds, reaching state 2. -/
theorem c1_pass_through_amended_witness :
    ([some "a", some "b"] : List (Option String)).length
        = ([sampleVS, sampleVS] : List ViewSettings).length
    ∧ (∃ fv', pass_through (FilterView.init [sampleVS, sampleVS] true)
          [some "a", some "b"] = some fv'
        ∧ fv'.state = (([sampleVS, sampleVS] : List ViewSettings).length : Int)) :=
  ⟨rfl,
    ((c1_pass_through_amended [sampleVS, sampleVS] true [some "a", some "b"] rfl).1).mpr
      (by decide)⟩

/-- C1 (counterexample): cancelling stage 0 drives the state to -1, so
the trace of a one-stage run with a single cancellation is `[0, -1]` —
the state index does go below 0, contrary to the claim. -/
theorem c1_counterexample :
    ((runTrace (FilterView.init [sampleVS] true) [none]).map FilterView.state) = [0, -1]
    ∧ ¬ (∀ g ∈ runTrace (FilterView.init [sampleVS] true) [none], 0 ≤ g.state) := by
  decide

theorem runTrace_selections_mem (outs : List (Option String)) :
    ∀ fv : FilterView,
      (∀ p ∈ fv.selections, 0 ≤ p.1 ∧ p.1 < (fv.views.length : Int)) →
      ∀ g ∈ runTrace fv outs, ∀ p ∈ g.selections,
        0 ≤ p.1 ∧ p.1 < (fv.views.length : Int) := by
  induction outs with
  | nil =>
    intro fv hfv g hg
    rw [runTrace_nil] at hg
    rw [List.mem_singleton.mp hg]
    exact hfv
  | cons o rest ih =>
    intro fv hfv g hg
    rw [runTrace_cons] at hg
    rcases List.mem_cons.mp hg with h | h
    · rw [h]; exact hfv
    · by_cases hc : 0 ≤ fv.state ∧ fv.state < (fv.views.length : Int)
      · rw [if_pos hc] at h
        have hstepsel : ∀ p ∈ (stepFV fv o).selections,
            0 ≤ p.1 ∧ p.1 < ((stepFV fv o).views.length : Int) := by
          intro p hp
          rw [stepFV_selections] at hp
          rw [stepFV_views]
          rcases mem_dictInsert fv.state o fv.selections p hp with h1 | h2
          · rw [h1]
            exact hc
          · exact hfv p h2
        have := ih (stepFV fv o) hstepsel g h
        rwa [stepFV_views] at this
      · rw [if_neg hc] at h
        cases h

/-- C7 (amended): `move_backward` only decrements the state, leaving both
the selections dict and the stored descriptors untouched;
`call_view_function` overwrites the running stage's entry with the fresh
outcome (so re-entering a stage replaces its previous selection); and at
every point of a `pass_through` run the selections dict holds entries
only for valid stage indices `0 ≤ i < N` — but, unlike the claim, not
only for indices below the current state: a cancelled stage records
`None` under its own index before the state decrements. -/
theorem c7_selections_amended :
    (∀ fv : FilterView, (fv.move_backward).state = fv.state - 1
        ∧ (fv.move_backward).selections = fv.selections
        ∧ (fv.move_backward).views = fv.views)
    ∧ (∀ (fv : FilterView) (o : Option String),
        alookup (fv.call_view_function o).selections fv.state = some o)
    ∧ (∀ (views : List ViewSettings) (dh : Bool) (outs : List (Option String)),
        ∀ g ∈ runTrace (FilterView.init views dh) outs,
          ∀ p ∈ g.selections, 0 ≤ p.1 ∧ p.1 < (views.length : Int)) := by
  refine ⟨fun fv => ⟨rfl, rfl, rfl⟩, fun fv o => ?_, fun views dh outs g hg p hp => ?_⟩
  · exact alookup_dictInsert_self fv.state o fv.selections
  · have := runTrace_selections_mem outs (FilterView.init views dh)
      (by intro p hp; cases hp) g hg p hp
    rwa [init_views] at this

/-- Witness for C7 (amended): after one selection the recorded entry sits
at a valid stage index, and the overwrite equation holds at stage 0. -/
theorem c7_selections_amended_witness :
    alookup ((FilterView.init [sampleVS] true).call_view_function (some "x")).selections
        ((FilterView.init [sampleVS] true).state) = some (some "x")
    ∧ (stepFV (FilterView.init [sampleVS] true) (some "x"))
        ∈ runTrace (FilterView.init [sampleVS] true) [some "x"]
    ∧ ∀ p ∈ (stepFV (FilterView.init [sampleVS] true) (some "x")).selections,
        0 ≤ p.1 ∧ p.1 < (([sampleVS] : List ViewSettings).length : Int) := by
  refine ⟨c7_selections_amended.2.1 (FilterView.init [sampleVS] true) (some "x"),
    by decide, ?_⟩
  intro p hp
  exact c7_selections_amended.2.2 [sampleVS] true [some "x"] _ (by decide) p hp

/-- C7 (counterexample): running two stages with a selection then a
cancellation leaves `selections = {0: "a", 1: None}` while the state is
back at 0 — the dict holds entries at indices not strictly below the
state index, refuting the claimed invariant. -/
theorem c7_counterexample :
    (stepFV (stepFV (FilterView.init [sampleVS, sampleVS] true) (some "a")) none).state = 0
    ∧ (stepFV (stepFV (FilterView.init [sampleVS, sampleVS] true) (some "a")) none).selections
        = [(0, some "a"), (1, none)]
    ∧ (stepFV (stepFV (FilterView.init [sampleVS, sampleVS] true) (some "a")) none)
        ∈ runTrace (FilterView.init [sampleVS, sampleVS] true) [some "a", none]
    ∧ ((runTrace (FilterView.init [sampleVS, sampleVS] true) [some "a", none]).all
        (fun g => g.selections.all (fun p => decide (p.1 < g.state)))) = false := by
  decide

/-- C10: executing a stage never changes the stored stage descriptors —
`call_view_function` adapts a deep copy, so `views` is preserved by every
single step, across every state of a `pass_through` run, and by the run
as a whole. -/
theorem c10_views_frame :
    (∀ (fv : FilterView) (o : Option String), (fv.call_view_function o).views = fv.views)
    ∧ (∀ (fv : FilterView) (outs : List (Option String)),
        ∀ g ∈ runTrace fv outs, g.views = fv.views)
    ∧ (∀ (fv : FilterView) (outs : List (Option String)) (fv' : FilterView),
        pass_through fv outs = some fv' → fv'.views = fv.views) :=
  ⟨fun _ _ => rfl,
    fun fv outs g hg => runTrace_views outs fv g hg,
    fun fv outs fv' h => pass_through_views outs fv fv' h⟩

/-- Witness for C10: a completed one-stage run returns an object whose
stored descriptors are those it started with. -/
theorem c10_views_frame_witness :
    pass_through (FilterView.init [sampleVS] true) [some "x"]
        = some (stepFV (FilterView.init [sampleVS] true) (some "x"))
    ∧ (stepFV (FilterView.init [sampleVS] true) (some "x")).views
        = (FilterView.init [sampleVS] true).views := by
  refine ⟨by decide, ?_⟩
  exact c10_views_frame.2.2 (FilterView.init [sampleVS] true) [some "x"] _ (by decide)

/-- Witness for C9 (amended) at a record with the non-numeric track
`3/4`: the output coerces the track to 0. -/
theorem c9_track_line_amended_witness :
    alookup [("track", "3/4"), ("title", "Song")] "track" = some "3/4"
    ∧ alookup [("track", "3/4"), ("title", "Song")] "title" = some "Song"
    ∧ get_track_output_line [("track", "3/4"), ("title", "Song")] = some "00 - Song" := by
  refine ⟨by decide, by decide, ?_⟩
  rw [c9_track_line_amended [("track", "3/4"), ("title", "Song")] "3/4" "Song"
    (by decide) (by decide)]
  decide

end Mfp
